import Mathlib

/-!
# Injective Market Pulse — verification of the normalization / metrics / cache core

Shallow embedding of the pure computational core of the market-intelligence
service: decimal conversion (`src/utils/decimals.ts`, `src/utils/validation.ts`),
math utilities (`src/utils/math.ts`), the resilient cache
(`src/services/cache.service.ts`), trade statistics
(`src/services/trades.service.ts`), the health score composer
(`src/services/health.service.ts`), orderbook level processing
(`src/services/orderbook.service.ts`) and the ranking aggregation
(`src/services/analytics.service.ts`).

Numbers are modelled by `ℚ` (exact rationals) except where the source uses
transcendental functions (`Math.log`, `Math.sqrt`), where `ℝ` is used.
JavaScript's `Number.prototype.toFixed(d)` rounds to the nearest multiple of
`10^(-d)`, ties towards the larger value (ECMA-262 "pick the larger n"), which
is exactly Mathlib's `round` (`⌊x + 1/2⌋`). JS `parseFloat` is modelled as an
abstract `String → Option ℚ` (`none` = NaN).
-/

namespace MarketPulse

/-- Embeds `toFixedSafe` from `src/utils/decimals.ts`:
`parseFloat(value.toFixed(decimals))` — round to `decimals` decimal digits. -/
def toFixedSafe (value : ℚ) (decimals : ℕ) : ℚ :=
  (round (value * (10 : ℚ) ^ decimals) : ℚ) / (10 : ℚ) ^ decimals

/-- Embeds `fromChainAmount` from `src/utils/validation.ts` (decimals module):
`if (!value || value === '0') return 0; const num = parseFloat(value);
if (isNaN(num)) return 0; return num / Math.pow(10, decimals);`.
`parseF` models JS `parseFloat` (`none` = NaN); `!value` on a string is true
exactly for the empty string. -/
def fromChainAmount (parseF : String → Option ℚ) (value : String) (decimals : ℤ) : ℚ :=
  if value = "" ∨ value = "0" then 0
  else
    match parseF value with
    | none => 0
    | some num => num / (10 : ℚ) ^ decimals

/-- Embeds `clamp` from `src/utils/math.ts`: `Math.max(min, Math.min(max, value))`. -/
def clamp (value lo hi : ℚ) : ℚ := max lo (min hi value)

/-- Embeds `scoreToGrade` from `src/utils/math.ts`. -/
def scoreToGrade (score : ℚ) : String :=
  if score ≥ 90 then "A+"
  else if score ≥ 80 then "A"
  else if score ≥ 70 then "B"
  else if score ≥ 60 then "C"
  else if score ≥ 50 then "D"
  else "F"

/-! ## Resilient cache (`src/services/cache.service.ts`)

The primary store (`cache`, TTL-bearing) and the secondary stale store
(`staleCache`, no expiry) are modelled as maps `String → Option _`; a `some`
in the primary map means a live (unexpired) entry, and TTLs are carried so
that re-seeding with `min(ttl, 15)` is observable.  A producer is a finished
`Except` value (the async call either resolved or rejected). -/

/-- Result shape `{ data, cached, stale? }` of `cacheGetOrSet`; the absent
`stale` field of the JS object is modelled as `false`. -/
structure CacheResult (V : Type) where
  data : V
  cached : Bool
  stale : Bool
  deriving Repr, DecidableEq

/-- The two stores of the cache service: primary (live entries with their TTL)
and secondary last-known-good. -/
structure CacheState (V : Type) where
  primary : String → Option (V × ℕ)
  secondary : String → Option V

/-- Embeds `NodeCache.set`: point update of a store. -/
def setStore (store : String → Option α) (key : String) (v : α) : String → Option α :=
  fun k => if k = key then some v else store k

/-- Embeds `cacheGetOrSet` from `src/services/cache.service.ts`:
primary hit → return cached; otherwise run the producer; on success write
primary (with `ttl`) and secondary and return fresh; on failure fall back to
the secondary store, re-seeding primary with `Math.min(ttl, 15)`, else
rethrow the producer's error. -/
def cacheGetOrSet (st : CacheState V) (key : String) (ttl : ℕ)
    (producer : Except E V) : Except E (CacheResult V) × CacheState V :=
  match st.primary key with
  | some (v, _) => (.ok ⟨v, true, false⟩, st)
  | none =>
    match producer with
    | .ok data =>
      (.ok ⟨data, false, false⟩,
        { primary := setStore st.primary key (data, ttl)
          secondary := setStore st.secondary key data })
    | .error err =>
      match st.secondary key with
      | some staleVal =>
        (.ok ⟨staleVal, true, true⟩,
          { st with primary := setStore st.primary key (staleVal, min ttl 15) })
      | none => (.error err, st)

/-! ## Health score composer (`src/services/health.service.ts`)

`getMarketHealth` reads four fields of the orderbook metrics and three fields
of the trade statistics; the score computation is embedded as a function of
those fields (`0.30 = 3/10`, `0.25 = 1/4`, `0.20 = 1/5`). -/

/-- The orderbook-metrics fields read by the health composer. -/
structure ObMetricsView where
  bidDepthNotional : ℚ
  askDepthNotional : ℚ
  depthImbalance : ℚ
  relativeSpreadBps : ℚ

/-- The trade-statistics fields read by the health composer. -/
structure TradeStatsView where
  volatility : ℚ
  totalTrades : ℕ
  totalNotional : ℚ

/-- Liquidity sub-score: `clamp((totalDepth / 500000) * 100, 0, 100)` minus
the imbalance penalty `depthImbalance * 30`, re-clamped. -/
def liquidityScore (ob : ObMetricsView) : ℚ :=
  let totalDepth := ob.bidDepthNotional + ob.askDepthNotional
  let depthScore := clamp (totalDepth / 500000 * 100) 0 100
  let balancePenalty := ob.depthImbalance * 30
  clamp (depthScore - balancePenalty) 0 100

/-- Spread sub-score: `0` if `spreadBps ≤ 0`, else
`clamp(100 - ((spreadBps - 5) / 195) * 100, 0, 100)`. -/
def spreadScore (ob : ObMetricsView) : ℚ :=
  if ob.relativeSpreadBps ≤ 0 then 0
  else clamp (100 - (ob.relativeSpreadBps - 5) / 195 * 100) 0 100

/-- The five-bucket volatility step function (thresholds 0.001, 0.005,
0.03, 0.08 → scores 30/60/90/60/20). -/
def volatilityBucket (vol : ℚ) : ℚ :=
  if vol < 1/1000 then 30
  else if vol < 5/1000 then 60
  else if vol ≤ 3/100 then 90
  else if vol ≤ 8/100 then 60
  else 20

/-- Volatility sub-score: bucket value plus the trade-frequency bonus
`clamp(totalTrades / 2, 0, 20)`, clamped to `[0,100]`. -/
def volatilityScore (ts : TradeStatsView) : ℚ :=
  let freqBonus := clamp ((ts.totalTrades : ℚ) / 2) 0 20
  clamp (volatilityBucket ts.volatility + freqBonus) 0 100

/-- Activity sub-score: `clamp((totalTrades / 100) * 80, 0, 80) +
clamp((totalNotional / 100000) * 20, 0, 20)`, clamped to `[0,100]`. -/
def activityScore (ts : TradeStatsView) : ℚ :=
  let tradeCountScore := clamp ((ts.totalTrades : ℚ) / 100 * 80) 0 80
  let volumeScore := clamp (ts.totalNotional / 100000 * 20) 0 20
  clamp (tradeCountScore + volumeScore) 0 100

/-- The composite health score of `getMarketHealth`:
`clamp(Math.round(liq*0.30 + spr*0.25 + vol*0.20 + act*0.25), 0, 100)`.
JS `Math.round` (half towards `+∞`) is Mathlib's `round`. -/
def getMarketHealthScore (ob : ObMetricsView) (ts : TradeStatsView) : ℚ :=
  clamp ((round (liquidityScore ob * (3/10) + spreadScore ob * (1/4) +
      volatilityScore ts * (1/5) + activityScore ts * (1/4)) : ℤ) : ℚ) 0 100

/-! ## Math utilities over ℝ (`src/utils/math.ts`)

`standardDeviation` and `realizedVolatility` use `Math.sqrt` / `Math.log`,
so they are embedded over `ℝ` (hence `noncomputable`). -/

/-- Embeds `standardDeviation` from `src/utils/math.ts`: sample standard deviation,
dividing the summed squared deviations by `N − 1`; `0` for fewer than two
values. -/
noncomputable def standardDeviation (values : List ℝ) : ℝ :=
  if values.length < 2 then 0
  else
    let mean := values.sum / values.length
    let squaredDiffs := values.map (fun v => (v - mean) ^ 2)
    Real.sqrt (squaredDiffs.sum / ((values.length : ℝ) - 1))

/-- The log-return series of `realizedVolatility`'s loop: for each adjacent
pair with both prices strictly positive, `log(pᵢ / pᵢ₋₁)`; non-positive
readings are skipped. -/
noncomputable def logReturns (prices : List ℝ) : List ℝ :=
  (prices.zip prices.tail).filterMap
    (fun p => if 0 < p.1 ∧ 0 < p.2 then some (Real.log (p.2 / p.1)) else none)

/-- Embeds `realizedVolatility` from `src/utils/math.ts`: `0` for fewer than 3
prices or fewer than 2 log returns, else the standard deviation of the log
returns. -/
noncomputable def realizedVolatility (prices : List ℝ) : ℝ :=
  if prices.length < 3 then 0
  else
    let lr := logReturns prices
    if lr.length < 2 then 0 else standardDeviation lr

/-- Modelled from the spec's words ("sample standard deviation, dividing by
N−1, of the log returns"): the unconditional sample standard deviation, for
comparison with the source's `standardDeviation`. -/
noncomputable def sampleStdDev (values : List ℝ) : ℝ :=
  Real.sqrt ((values.map (fun v => (v - values.sum / values.length) ^ 2)).sum /
    ((values.length : ℝ) - 1))

/-- Embeds `toFixedSafe` over `ℝ` (same JS function, applied to a real-valued
argument such as the volatility). -/
noncomputable def toFixedSafeR (value : ℝ) (decimals : ℕ) : ℝ :=
  (round (value * (10 : ℝ) ^ decimals) : ℤ) / (10 : ℝ) ^ decimals

/-! ## Trade statistics (`src/services/trades.service.ts`)

`NormalizedTrade` is embedded with the fields `computeTradeStats` reads
(price, quantity, notional, side); identity/timestamp/fee strings are not
read by any statistic.  JS `Infinity` (possible value of `buySellRatio`) is
modelled by the two-variant type `RatioOrInf`; the source field
`buySellRatio` is named `buySellRatioV` here. -/

inductive Side where
  | buy
  | sell
  deriving DecidableEq, Repr

/-- The two venue kinds. -/
inductive MarketType where
  | spot
  | derivative
  deriving DecidableEq, Repr

/-- The market fields read by `computeTradeStats` and the rankings
aggregator (identity, ticker, venue kind). -/
structure NormalizedMarket where
  marketId : String
  ticker : String
  mtype : MarketType
  deriving DecidableEq, Repr

structure NormalizedTrade where
  price : ℚ
  quantity : ℚ
  notional : ℚ
  side : Side
  deriving DecidableEq, Repr

/-- A JS number that is either finite or `Infinity`. -/
inductive RatioOrInf where
  | fin (q : ℚ)
  | inf
  deriving DecidableEq, Repr

structure TradeStats where
  marketId : String
  ticker : String
  period : String
  totalTrades : ℕ
  totalVolume : ℚ
  totalNotional : ℚ
  avgPrice : ℚ
  avgTradeSize : ℚ
  highPrice : ℚ
  lowPrice : ℚ
  priceChange : ℚ
  priceChangePercent : ℚ
  buyCount : ℕ
  sellCount : ℕ
  buySellRatioV : RatioOrInf
  volatility : ℝ
  trades : List NormalizedTrade

/-- Embeds `emptyStats` from `src/services/trades.service.ts`: the explicit
"no data" record, every numeric field zero. -/
def emptyStats (market : NormalizedMarket) : TradeStats where
  marketId := market.marketId
  ticker := market.ticker
  period := "no_data"
  totalTrades := 0
  totalVolume := 0
  totalNotional := 0
  avgPrice := 0
  avgTradeSize := 0
  highPrice := 0
  lowPrice := 0
  priceChange := 0
  priceChangePercent := 0
  buyCount := 0
  sellCount := 0
  buySellRatioV := .fin 0
  volatility := 0
  trades := []

/-- Embeds `computeTradeStats` from `src/services/trades.service.ts`.  The empty
window returns `emptyStats`; otherwise sums, means, extrema, first-vs-last
price change, buy/sell counts and ratio, and the rounded realized
volatility.  `Math.max(...prices)` / `Math.min(...prices)` are `max?`/`min?`
(the list is non-empty, so the `getD 0` default is never taken);
`prices[0]` is the head and `prices[prices.length - 1]` the last element. -/
noncomputable def computeTradeStats (market : NormalizedMarket)
    (trades : List NormalizedTrade) : TradeStats :=
  match trades with
  | [] => emptyStats market
  | t0 :: rest =>
    let tradesAll := t0 :: rest
    let prices := tradesAll.map (·.price)
    let quantities := tradesAll.map (·.quantity)
    let notionals := tradesAll.map (·.notional)
    let totalVolume := toFixedSafe quantities.sum 6
    let totalNotional := toFixedSafe notionals.sum 2
    let avgPrice := toFixedSafe (prices.sum / prices.length) 8
    let avgTradeSize := toFixedSafe (totalVolume / tradesAll.length) 6
    let highPrice := toFixedSafe ((prices.max?).getD 0) 8
    let lowPrice := toFixedSafe ((prices.min?).getD 0) 8
    let oldestPrice := (prices.getLast?).getD 0
    let newestPrice := t0.price
    let priceChange := toFixedSafe (newestPrice - oldestPrice) 8
    let priceChangePercent :=
      if 0 < oldestPrice then toFixedSafe (priceChange / oldestPrice * 100) 4 else 0
    let buyCount := (tradesAll.filter (fun t => t.side = Side.buy)).length
    let sellCount := (tradesAll.filter (fun t => t.side = Side.sell)).length
    let ratio : RatioOrInf :=
      if 0 < sellCount then .fin (toFixedSafe ((buyCount : ℚ) / sellCount) 4)
      else if 0 < buyCount then .inf else .fin 0
    let vol := toFixedSafeR (realizedVolatility (prices.map (fun q => (q : ℝ)))) 6
    { marketId := market.marketId
      ticker := market.ticker
      period := "last_" ++ toString tradesAll.length ++ "_trades"
      totalTrades := tradesAll.length
      totalVolume := totalVolume
      totalNotional := totalNotional
      avgPrice := avgPrice
      avgTradeSize := avgTradeSize
      highPrice := highPrice
      lowPrice := lowPrice
      priceChange := priceChange
      priceChangePercent := priceChangePercent
      buyCount := buyCount
      sellCount := sellCount
      buySellRatioV := ratio
      volatility := vol
      trades := tradesAll }

/-! ## Orderbook level processing (`src/services/orderbook.service.ts`)

`processLevels` converts each raw level by the venue-specific decimal
conversion and accumulates a running cumulative quantity.  The conversion
itself is the decimal-converter layer (`fromChainAmount` etc.); here a raw
level is represented by its converted `price`/`quantity` pair, over which
the claim's quantification ranges. -/

/-- A raw level after venue-specific decimal conversion: the `price` and
`quantity` values of the loop body of `processLevels`. -/
structure RawLevel where
  price : ℚ
  quantity : ℚ
  deriving DecidableEq, Repr

structure OrderbookLevel where
  price : ℚ
  quantity : ℚ
  total : ℚ
  notional : ℚ
  deriving DecidableEq, Repr

/-- The loop of `processLevels`: running cumulative quantity `cumulative`,
each emitted level carrying `toFixedSafe` roundings exactly as the source
(price to 8, quantity and cumulative total to 6, notional to 2). -/
def processLevelsAux (cumulative : ℚ) : List RawLevel → List OrderbookLevel
  | [] => []
  | l :: rest =>
    let cum := cumulative + l.quantity
    { price := toFixedSafe l.price 8
      quantity := toFixedSafe l.quantity 6
      total := toFixedSafe cum 6
      notional := toFixedSafe (l.price * l.quantity) 2 } :: processLevelsAux cum rest

/-- Embeds `processLevels` from `src/services/orderbook.service.ts`:
`rawLevels.slice(0, depth)` then the cumulative loop. -/
def processLevels (rawLevels : List RawLevel) (depth : ℕ) : List OrderbookLevel :=
  processLevelsAux 0 (rawLevels.take depth)

/-- Embeds `computeMetrics`' per-side depth total:
`bids.length > 0 ? bids[bids.length - 1].total : 0` (the last level's
cumulative total, `0` for an empty side). -/
def sideDepthTotal (levels : List OrderbookLevel) : ℚ :=
  match levels.getLast? with
  | some l => l.total
  | none => 0

/-! ## Rankings aggregation (`src/services/analytics.service.ts`)

The pure tail of `getRankings` after the concurrent fan-out: each market's
sub-computation has settled (`Promise.allSettled` never rejects) to either a
metric value or a failure; fulfilled entries are collected, sorted (ascending
exactly for `spread`), capped at `limit` and decorated with 1-based ranks. -/

inductive Metric where
  | volume
  | liquidity
  | health
  | spread
  | volatility
  deriving DecidableEq, Repr

structure MarketRanking where
  rank : ℕ
  marketId : String
  ticker : String
  mtype : MarketType
  value : ℚ
  metric : Metric
  deriving DecidableEq, Repr

/-- The fulfilled-only collection loops of `getRankings`: each settled
result contributes `{ market, value }` when fulfilled and is skipped when
rejected. -/
def collectEntries {E : Type} (results : List (NormalizedMarket × Except E ℚ)) :
    List (NormalizedMarket × ℚ) :=
  results.filterMap (fun r =>
    match r.2 with
    | .ok v => some (r.1, v)
    | .error _ => none)

/-- Embeds `entries.sort((a, b) => ascending ? a.value - b.value : b.value - a.value)`:
JS `Array.prototype.sort` is a stable sort by the comparator, which the
stable `mergeSort` with the corresponding boolean order models. -/
def rankingSort (ascending : Bool) (entries : List (NormalizedMarket × ℚ)) :
    List (NormalizedMarket × ℚ) :=
  entries.mergeSort
    (fun a b => if ascending then decide (a.2 ≤ b.2) else decide (b.2 ≤ a.2))

/-- Embeds `.map((e, i) => ({ rank: i + 1, marketId, ticker, type,
value: toFixedSafe(e.value, 6), metric }))`, with the running index made
explicit. -/
def rankedFrom (metric : Metric) : ℕ → List (NormalizedMarket × ℚ) → List MarketRanking
  | _, [] => []
  | i, e :: rest =>
    { rank := i + 1
      marketId := e.1.marketId
      ticker := e.1.ticker
      mtype := e.1.mtype
      value := toFixedSafe e.2 6
      metric := metric } :: rankedFrom metric (i + 1) rest

/-- The pure core of `getRankings`: collect fulfilled entries, sort
(`ascending = (metric === 'spread')`), `slice(0, limit)`, assign ranks. -/
def getRankingsCore {E : Type} (metric : Metric) (limit : ℕ)
    (results : List (NormalizedMarket × Except E ℚ)) : List MarketRanking :=
  rankedFrom metric 0
    ((rankingSort (metric == Metric.spread) (collectEntries results)).take limit)

/-! ## Theorems -/

lemma clamp_nonneg (v hi : ℚ) : 0 ≤ clamp v 0 hi := le_max_left _ _

lemma clamp_le_hi (v hi : ℚ) (h : 0 ≤ hi) : clamp v 0 hi ≤ hi :=
  max_le h (min_le_left _ _)

/-- Claim C1: For every key, TTL and producer: if the primary cache has no live
entry for the key and the producer fails, then (a) if the secondary
last-known-good store holds a value for the key, `cacheGetOrSet` returns that
value flagged stale and re-seeds the primary store at the key with TTL
`min(ttl, 15)`; (b) if the secondary store holds nothing for the key, the
producer's error propagates and the cache state is unchanged. -/
theorem cacheGetOrSet_stale_fallback {V E : Type} (st : CacheState V) (key : String)
    (ttl : ℕ) (e : E) (hmiss : st.primary key = none) :
    (∀ v, st.secondary key = some v →
      cacheGetOrSet st key ttl (.error e) =
        (.ok ⟨v, true, true⟩,
          { st with primary := setStore st.primary key (v, min ttl 15) })) ∧
    (st.secondary key = none →
      cacheGetOrSet st key ttl (.error e) = (.error e, st)) := by
  constructor
  · intro v hv
    simp [cacheGetOrSet, hmiss, hv]
  · intro hnone
    simp [cacheGetOrSet, hmiss, hnone]

/-- Witness for C1 at a concrete state: key `"k"` absent from primary,
secondary holding `7`, TTL `60`; the stale value is served and primary is
re-seeded with TTL `min 60 15 = 15`. -/
theorem cacheGetOrSet_stale_fallback_witness :
    cacheGetOrSet
      (⟨fun _ => none, fun k => if k = "k" then some 7 else none⟩ : CacheState ℕ)
      "k" 60 (Except.error ()) =
      (.ok ⟨7, true, true⟩,
        { primary := setStore (fun _ => none) "k" (7, min 60 15)
          secondary := fun k => if k = "k" then some 7 else none }) :=
  (cacheGetOrSet_stale_fallback
      ⟨fun _ => none, fun k => if k = "k" then some 7 else none⟩ "k" 60 () rfl).1 7 (by simp)

/-- Claim C8: For every parse function, chain-format string `s` and decimal
count `d`: `fromChainAmount` returns `0` whenever `s` is empty, the literal
`"0"`, or non-numeric (parse = NaN), and otherwise returns
`parseFloat(s) / 10^d`; being a total function it never fails. -/
theorem fromChainAmount_spec (parseF : String → Option ℚ) (value : String) (decimals : ℤ) :
    ((value = "" ∨ value = "0" ∨ parseF value = none) →
      fromChainAmount parseF value decimals = 0) ∧
    (∀ q, value ≠ "" → value ≠ "0" → parseF value = some q →
      fromChainAmount parseF value decimals = q / (10 : ℚ) ^ decimals) := by
  constructor
  · rintro (h | h | h) <;> simp [fromChainAmount, h]
  · intro q h1 h2 hp
    simp [fromChainAmount, h1, h2, hp]

/-- Witness for C8: with a parse function sending `"25"` to `25`, decoding
`"25"` with 1 decimal yields `5/2`, and decoding `""`, `"0"` and an
unparsable string yields `0`. -/
theorem fromChainAmount_spec_witness :
    fromChainAmount (fun s => if s = "25" then some 25 else none) "25" 1 = 25 / (10 : ℚ) ^ (1 : ℤ) ∧
    fromChainAmount (fun s => if s = "25" then some 25 else none) "" 1 = 0 ∧
    fromChainAmount (fun s => if s = "25" then some 25 else none) "0" 1 = 0 ∧
    fromChainAmount (fun s => if s = "25" then some 25 else none) "xyz" 1 = 0 :=
  ⟨(fromChainAmount_spec _ "25" 1).2 25 (by decide) (by decide) (by simp),
   (fromChainAmount_spec _ "" 1).1 (Or.inl rfl),
   (fromChainAmount_spec _ "0" 1).1 (Or.inr (Or.inl rfl)),
   (fromChainAmount_spec _ "xyz" 1).1 (Or.inr (Or.inr (by simp)))⟩

/-- Claim C7: `scoreToGrade` boundaries: `"A+"` iff score ≥ 90, `"A"` iff
80 ≤ score < 90, `"B"` iff 70 ≤ score < 80, `"C"` iff 60 ≤ score < 70,
`"D"` iff 50 ≤ score < 60, `"F"` iff score < 50 — every threshold inclusive
on the high side. -/
theorem scoreToGrade_boundaries (score : ℚ) :
    (scoreToGrade score = "A+" ↔ 90 ≤ score) ∧
    (scoreToGrade score = "A" ↔ 80 ≤ score ∧ score < 90) ∧
    (scoreToGrade score = "B" ↔ 70 ≤ score ∧ score < 80) ∧
    (scoreToGrade score = "C" ↔ 60 ≤ score ∧ score < 70) ∧
    (scoreToGrade score = "D" ↔ 50 ≤ score ∧ score < 60) ∧
    (scoreToGrade score = "F" ↔ score < 50) := by
  unfold scoreToGrade
  split_ifs with h1 h2 h3 h4 h5 <;>
    refine ⟨?_, ?_, ?_, ?_, ?_, ?_⟩ <;>
    simp_all <;> intros <;> linarith

/-- Claim C3: For every combination of orderbook metrics and trade statistics
inputs (including zero depth, zero trades, zero volatility and spread exactly
0), each of the four sub-scores is clamped to `[0,100]`, the composite health
score is the weighted sum (liquidity 0.30, spread 0.25, volatility 0.20,
activity 0.25) rounded to the nearest integer and clamped to `[0,100]`, and
therefore lies in `[0,100]`. -/
theorem getMarketHealth_score_in_range (ob : ObMetricsView) (ts : TradeStatsView) :
    (0 ≤ liquidityScore ob ∧ liquidityScore ob ≤ 100) ∧
    (0 ≤ spreadScore ob ∧ spreadScore ob ≤ 100) ∧
    (0 ≤ volatilityScore ts ∧ volatilityScore ts ≤ 100) ∧
    (0 ≤ activityScore ts ∧ activityScore ts ≤ 100) ∧
    getMarketHealthScore ob ts =
      clamp ((round (liquidityScore ob * (3/10) + spreadScore ob * (1/4) +
        volatilityScore ts * (1/5) + activityScore ts * (1/4)) : ℤ) : ℚ) 0 100 ∧
    0 ≤ getMarketHealthScore ob ts ∧ getMarketHealthScore ob ts ≤ 100 := by
  have hspread0 : 0 ≤ spreadScore ob := by
    unfold spreadScore
    split
    · exact le_refl 0
    · exact clamp_nonneg _ _
  have hspread100 : spreadScore ob ≤ 100 := by
    unfold spreadScore
    split
    · norm_num
    · exact clamp_le_hi _ _ (by norm_num)
  exact ⟨⟨clamp_nonneg _ _, clamp_le_hi _ _ (by norm_num)⟩,
    ⟨hspread0, hspread100⟩,
    ⟨clamp_nonneg _ _, clamp_le_hi _ _ (by norm_num)⟩,
    ⟨clamp_nonneg _ _, clamp_le_hi _ _ (by norm_num)⟩,
    rfl,
    clamp_nonneg _ _, clamp_le_hi _ _ (by norm_num)⟩

/-! ### Trade statistics and volatility -/

lemma logReturns_cons_cons (a b : ℝ) (t : List ℝ) :
    logReturns (a :: b :: t) =
      (if 0 < a ∧ 0 < b then [Real.log (b / a)] else []) ++ logReturns (b :: t) := by
  simp only [logReturns, List.tail_cons, List.zip_cons_cons, List.filterMap_cons]
  split <;> simp_all

lemma logReturns_replicate (c : ℝ) (hc : 0 < c) :
    ∀ n, logReturns (List.replicate (n + 1) c) = List.replicate n 0 := by
  intro n
  induction n with
  | zero => simp [logReturns]
  | succ m ih =>
    have h1 : List.replicate (m + 1 + 1) c = c :: c :: List.replicate m c := by
      simp [List.replicate_succ]
    have h2 : c :: List.replicate m c = List.replicate (m + 1) c := by
      simp [List.replicate_succ]
    rw [h1, logReturns_cons_cons, h2, ih, if_pos ⟨hc, hc⟩, div_self (ne_of_gt hc),
      Real.log_one]
    simp [List.replicate_succ]

lemma standardDeviation_replicate_zero (n : ℕ) :
    standardDeviation (List.replicate n (0 : ℝ)) = 0 := by
  unfold standardDeviation
  split
  · rfl
  · simp [List.sum_replicate]

lemma standardDeviation_eq_sampleStdDev (l : List ℝ) (h : 2 ≤ l.length) :
    standardDeviation l = sampleStdDev l := by
  unfold standardDeviation sampleStdDev
  rw [if_neg (by omega)]

/-- Claim C4: `realizedVolatility` is `0` for fewer than 3 prices or fewer
than 2 log returns (returns computed only between strictly positive adjacent
prices, skips shrinking the series), and otherwise equals the sample
standard deviation (dividing by `N − 1`) of the log-return series; in
particular it is exactly `0` on any constant positive series of length ≥ 3. -/
theorem realizedVolatility_spec :
    (∀ prices : List ℝ, prices.length < 3 → realizedVolatility prices = 0) ∧
    (∀ prices : List ℝ, (logReturns prices).length < 2 → realizedVolatility prices = 0) ∧
    (∀ prices : List ℝ, 3 ≤ prices.length → 2 ≤ (logReturns prices).length →
      realizedVolatility prices = sampleStdDev (logReturns prices)) ∧
    (∀ (c : ℝ) (n : ℕ), 0 < c → 3 ≤ n →
      realizedVolatility (List.replicate n c) = 0) := by
  refine ⟨?_, ?_, ?_, ?_⟩
  · intro prices h
    unfold realizedVolatility
    rw [if_pos h]
  · intro prices h
    unfold realizedVolatility
    split
    · rfl
    · rw [if_pos h]
  · intro prices h3 h2
    unfold realizedVolatility
    rw [if_neg (by omega)]
    show (if (logReturns prices).length < 2 then 0
      else standardDeviation (logReturns prices)) = _
    rw [if_neg (by omega), standardDeviation_eq_sampleStdDev _ h2]
  · intro c n hc hn
    obtain ⟨m, rfl⟩ : ∃ m, n = m + 1 := ⟨n - 1, by omega⟩
    unfold realizedVolatility
    rw [if_neg (by simp; omega)]
    show (if (logReturns (List.replicate (m + 1) c)).length < 2 then 0
      else standardDeviation (logReturns (List.replicate (m + 1) c))) = 0
    rw [logReturns_replicate c hc m, if_neg (by simp; omega)]
    exact standardDeviation_replicate_zero m

/-- Witness for C4 at the concrete constant series `[2, 2, 2]`. -/
theorem realizedVolatility_spec_witness :
    (0 : ℝ) < 2 ∧ 3 ≤ 3 ∧ realizedVolatility (List.replicate 3 (2 : ℝ)) = 0 :=
  ⟨by norm_num, le_refl 3, realizedVolatility_spec.2.2.2 2 3 (by norm_num) (le_refl 3)⟩

/-- Claim C5: An empty trade window produces the explicit "no data" record:
every numeric field (counts, volumes, notional, averages, high/low, price
change and percent change, buy/sell counts, ratio, volatility) is zero, and
no division is performed (the record is a constant). -/
theorem computeTradeStats_empty_window (market : NormalizedMarket) :
    computeTradeStats market [] = emptyStats market ∧
    (emptyStats market).totalTrades = 0 ∧
    (emptyStats market).totalVolume = 0 ∧
    (emptyStats market).totalNotional = 0 ∧
    (emptyStats market).avgPrice = 0 ∧
    (emptyStats market).avgTradeSize = 0 ∧
    (emptyStats market).highPrice = 0 ∧
    (emptyStats market).lowPrice = 0 ∧
    (emptyStats market).priceChange = 0 ∧
    (emptyStats market).priceChangePercent = 0 ∧
    (emptyStats market).buyCount = 0 ∧
    (emptyStats market).sellCount = 0 ∧
    (emptyStats market).buySellRatioV = RatioOrInf.fin 0 ∧
    (emptyStats market).volatility = 0 ∧
    (emptyStats market).trades = [] :=
  ⟨rfl, rfl, rfl, rfl, rfl, rfl, rfl, rfl, rfl, rfl, rfl, rfl, rfl, rfl, rfl⟩

lemma length_filter_buy_add_sell (trades : List NormalizedTrade) :
    (trades.filter (fun t => t.side = Side.buy)).length +
      (trades.filter (fun t => t.side = Side.sell)).length = trades.length := by
  induction trades with
  | nil => rfl
  | cons t rest ih =>
    cases h : t.side <;> simp [List.filter_cons, h] <;> omega

/-- Claim C10 counterexample: A non-empty window consisting of one sell trade
has `buySellRatio = toFixedSafe(0/1, 4) = 0` although it contains a sell
trade — refuting the claim that, on non-empty windows, the ratio is `0` only
when the window contains no buy and no sell trades. -/
theorem computeTradeStats_ratio_zero_with_sells :
    (computeTradeStats ⟨"0xabc", "AAA/BBB", MarketType.spot⟩
        [⟨1, 1, 1, Side.sell⟩]).buySellRatioV = RatioOrInf.fin 0 ∧
    (computeTradeStats ⟨"0xabc", "AAA/BBB", MarketType.spot⟩
        [⟨1, 1, 1, Side.sell⟩]).sellCount = 1 ∧
    (computeTradeStats ⟨"0xabc", "AAA/BBB", MarketType.spot⟩
        [⟨1, 1, 1, Side.sell⟩]).totalTrades = 1 := by
  refine ⟨?_, by simp [computeTradeStats], by simp [computeTradeStats]⟩
  simp [computeTradeStats, toFixedSafe]

/-- Claim C10 amended: For every non-empty trade window of at most 100
trades: the ratio is `Infinity` exactly when the window has at least one buy
and no sell trades; the ratio is `0` exactly when the window has no buy
trades; and when sells are present the ratio is `buyCount / sellCount`
rounded to 4 decimal digits. -/
theorem computeTradeStats_buySellRatio_cases (m : NormalizedMarket)
    (trades : List NormalizedTrade) (hne : trades ≠ []) (hlen : trades.length ≤ 100) :
    ((computeTradeStats m trades).buySellRatioV = RatioOrInf.inf ↔
      0 < (computeTradeStats m trades).buyCount ∧
        (computeTradeStats m trades).sellCount = 0) ∧
    ((computeTradeStats m trades).buySellRatioV = RatioOrInf.fin 0 ↔
      (computeTradeStats m trades).buyCount = 0) ∧
    (0 < (computeTradeStats m trades).sellCount →
      (computeTradeStats m trades).buySellRatioV =
        RatioOrInf.fin (toFixedSafe (((computeTradeStats m trades).buyCount : ℚ) /
          ((computeTradeStats m trades).sellCount : ℚ)) 4)) := by
  obtain ⟨t0, rest, rfl⟩ := List.exists_cons_of_ne_nil hne
  have hsum := length_filter_buy_add_sell (t0 :: rest)
  simp only [computeTradeStats]
  set bc := ((t0 :: rest).filter (fun t => t.side = Side.buy)).length with hbc
  set sc := ((t0 :: rest).filter (fun t => t.side = Side.sell)).length with hsc
  have hpos : 0 < bc + sc := by
    rw [hsum]
    simp
  rcases Nat.eq_zero_or_pos sc with hs0 | hs1
  · have hb1 : 0 < bc := by omega
    rw [hs0, if_neg (lt_irrefl 0), if_pos hb1]
    refine ⟨by simp [hb1], ?_, fun h => absurd h (lt_irrefl 0)⟩
    constructor
    · intro h
      exact absurd h (by simp)
    · intro h
      omega
  · rw [if_pos hs1]
    have hsc100 : (sc : ℚ) ≤ 100 := by
      have : sc ≤ 100 := by
        have := hlen
        omega
      exact_mod_cast this
    refine ⟨by simp; omega, ?_, fun _ => rfl⟩
    constructor
    · intro hfin
      by_contra hb
      have hb1 : (1 : ℚ) ≤ (bc : ℚ) := by
        have : 1 ≤ bc := by omega
        exact_mod_cast this
      have hscq : (0 : ℚ) < (sc : ℚ) := by exact_mod_cast hs1
      have hquot : (1 : ℚ) / 100 ≤ (bc : ℚ) / (sc : ℚ) :=
        div_le_div₀ (by linarith) hb1 hscq hsc100
      have hx : (100 : ℚ) ≤ (bc : ℚ) / (sc : ℚ) * 10 ^ 4 := by
        nlinarith
      have hround : (1 : ℤ) ≤ round ((bc : ℚ) / (sc : ℚ) * 10 ^ 4) := by
        rw [round_eq, Int.le_floor]
        push_cast
        linarith
      have hval : toFixedSafe ((bc : ℚ) / (sc : ℚ)) 4 ≠ 0 := by
        unfold toFixedSafe
        apply div_ne_zero
        · have : (0 : ℚ) < ((round ((bc : ℚ) / (sc : ℚ) * 10 ^ 4) : ℤ) : ℚ) := by
            exact_mod_cast hround
          linarith
        · norm_num
      simp only [RatioOrInf.fin.injEq] at hfin
      exact hval hfin
    · intro hb0
      rw [hb0]
      simp [toFixedSafe]

/-! ### Orderbook levels -/

lemma roundQ_mono {x y : ℚ} (h : x ≤ y) : round x ≤ round y := by
  rw [round_eq, round_eq]
  exact Int.floor_le_floor (by linarith)

lemma toFixedSafe_mono (d : ℕ) {x y : ℚ} (h : x ≤ y) :
    toFixedSafe x d ≤ toFixedSafe y d := by
  unfold toFixedSafe
  have hp : (0 : ℚ) < (10 : ℚ) ^ d := by positivity
  have hr : round (x * (10 : ℚ) ^ d) ≤ round (y * (10 : ℚ) ^ d) :=
    roundQ_mono (by nlinarith)
  have hc : ((round (x * (10 : ℚ) ^ d) : ℤ) : ℚ) ≤
      ((round (y * (10 : ℚ) ^ d) : ℤ) : ℚ) := by exact_mod_cast hr
  gcongr

lemma processLevelsAux_totals_sorted (ls : List RawLevel)
    (h : ∀ l ∈ ls, 0 ≤ l.quantity) :
    ∀ c : ℚ, ((processLevelsAux c ls).map (fun l => l.total)).Sorted (· ≤ ·) ∧
      ∀ x ∈ (processLevelsAux c ls).map (fun l => l.total), toFixedSafe c 6 ≤ x := by
  induction ls with
  | nil =>
    intro c
    simp [processLevelsAux, List.Sorted]
  | cons l rest ih =>
    intro c
    have hq : 0 ≤ l.quantity := h l (by simp)
    have hrest : ∀ x ∈ rest, 0 ≤ x.quantity := fun x hx => h x (by simp [hx])
    obtain ⟨ihs, ihb⟩ := ih hrest (c + l.quantity)
    have hcc : toFixedSafe c 6 ≤ toFixedSafe (c + l.quantity) 6 :=
      toFixedSafe_mono 6 (by linarith)
    constructor
    · simp only [processLevelsAux, List.map_cons]
      rw [List.sorted_cons]
      exact ⟨fun b hb => ihb b hb, ihs⟩
    · intro x hx
      simp only [processLevelsAux, List.map_cons, List.mem_cons] at hx
      rcases hx with rfl | hx
      · exact hcc
      · exact le_trans hcc (ihb x hx)

lemma processLevelsAux_last_total (ls : List RawLevel) :
    ∀ c : ℚ, ls ≠ [] → ∃ lv, (processLevelsAux c ls).getLast? = some lv ∧
      lv.total = toFixedSafe (c + (ls.map (fun l => l.quantity)).sum) 6 := by
  induction ls with
  | nil => intro c hc; exact absurd rfl hc
  | cons l rest ih =>
    intro c _
    cases rest with
    | nil =>
      refine ⟨{ price := toFixedSafe l.price 8
                quantity := toFixedSafe l.quantity 6
                total := toFixedSafe (c + l.quantity) 6
                notional := toFixedSafe (l.price * l.quantity) 2 }, rfl, ?_⟩
      simp
    | cons r rs =>
      obtain ⟨lv, hlast, htot⟩ := ih (c + l.quantity) (by simp)
      refine ⟨lv, ?_, ?_⟩
      · have hstep : processLevelsAux c (l :: r :: rs) =
            { price := toFixedSafe l.price 8
              quantity := toFixedSafe l.quantity 6
              total := toFixedSafe (c + l.quantity) 6
              notional := toFixedSafe (l.price * l.quantity) 2 } ::
              processLevelsAux (c + l.quantity) (r :: rs) := rfl
        have hstep2 : processLevelsAux (c + l.quantity) (r :: rs) =
            { price := toFixedSafe r.price 8
              quantity := toFixedSafe r.quantity 6
              total := toFixedSafe (c + l.quantity + r.quantity) 6
              notional := toFixedSafe (r.price * r.quantity) 2 } ::
              processLevelsAux (c + l.quantity + r.quantity) rs := rfl
        rw [hstep, hstep2, List.getLast?_cons_cons, ← hstep2]
        exact hlast
      · rw [htot]
        congr 1
        simp only [List.map_cons, List.sum_cons]
        ring

/-- Claim C9 counterexample: Three levels of quantity `1/2000000` (= 5·10⁻⁷):
the stored totals are `[10⁻⁶, 10⁻⁶, 2·10⁻⁶]` (monotone), but the last total
`2·10⁻⁶` equals neither the sum of the stored 6-digit-rounded quantity
fields (`3·10⁻⁶`) nor the sum of the converted quantities (`1.5·10⁻⁶`):
`toFixedSafe` rounding breaks the exact-sum identity.  Moreover a negative
converted quantity produces strictly decreasing totals, so the monotonicity
part also fails on an arbitrary raw array. -/
theorem processLevels_sum_counterexample :
    sideDepthTotal (processLevels
        [⟨1, 1/2000000⟩, ⟨1, 1/2000000⟩, ⟨1, 1/2000000⟩] 25) = 1/500000 ∧
    ((processLevels [⟨1, 1/2000000⟩, ⟨1, 1/2000000⟩, ⟨1, 1/2000000⟩] 25).map
        (fun l => l.quantity)).sum = 3/1000000 ∧
    (([(⟨1, 1/2000000⟩ : RawLevel), ⟨1, 1/2000000⟩, ⟨1, 1/2000000⟩].map
        (fun l => l.quantity)).sum = 3/2000000) ∧
    ((1/500000 : ℚ) ≠ 3/1000000) ∧ ((1/500000 : ℚ) ≠ 3/2000000) ∧
    ¬ ((processLevels [⟨1, 1⟩, ⟨1, -1⟩] 25).map
        (fun l => l.total)).Sorted (· ≤ ·) := by
  refine ⟨?_, ?_, by norm_num, by norm_num, by norm_num, ?_⟩
  · norm_num [sideDepthTotal, processLevels, processLevelsAux, toFixedSafe, round_eq]
  · norm_num [processLevels, processLevelsAux, toFixedSafe, round_eq]
  · have htot : (processLevels [⟨1, 1⟩, ⟨1, -1⟩] 25).map (fun l => l.total) =
        [1, 0] := by
      norm_num [processLevels, processLevelsAux, toFixedSafe, round_eq]
    rw [htot]
    simp [List.sorted_cons]

/-- Claim C9 amended: For every raw level array whose converted quantities
are nonnegative, and every depth: the cumulative `total` fields of the
processed side (levels taken in order, capped at `depth`) are monotonically
non-decreasing, and the side's reported depth total (the last level's
`total`, `0` for an empty side) equals the sum of the taken levels'
quantities rounded to 6 decimal digits. -/
theorem processLevels_totals (rawLevels : List RawLevel) (depth : ℕ)
    (h : ∀ l ∈ rawLevels.take depth, 0 ≤ l.quantity) :
    ((processLevels rawLevels depth).map (fun l => l.total)).Sorted (· ≤ ·) ∧
    sideDepthTotal (processLevels rawLevels depth) =
      toFixedSafe (((rawLevels.take depth).map (fun l => l.quantity)).sum) 6 := by
  constructor
  · exact (processLevelsAux_totals_sorted _ h 0).1
  · cases hne : rawLevels.take depth with
    | nil => simp [processLevels, hne, processLevelsAux, sideDepthTotal, toFixedSafe]
    | cons a t =>
      obtain ⟨lv, hlast, htot⟩ :=
        processLevelsAux_last_total (a :: t) 0 (by simp)
      unfold processLevels sideDepthTotal
      rw [hne, hlast]
      show lv.total = _
      rw [htot, zero_add]

/-- Witness for the amended C9 at a concrete side `[(10, 2), (9, 3)]` with
depth 25: totals `[2, 5]` are sorted and the reported depth total is
`toFixedSafe(2+3, 6) = 5`. -/
theorem processLevels_totals_witness :
    (∀ l ∈ ([⟨10, 2⟩, ⟨9, 3⟩] : List RawLevel).take 25, 0 ≤ l.quantity) ∧
    ((processLevels [⟨10, 2⟩, ⟨9, 3⟩] 25).map (fun l => l.total)).Sorted (· ≤ ·) ∧
    sideDepthTotal (processLevels [⟨10, 2⟩, ⟨9, 3⟩] 25) =
      toFixedSafe ((([⟨10, 2⟩, ⟨9, 3⟩] : List RawLevel).take 25).map
        (fun l => l.quantity)).sum 6 :=
  ⟨by norm_num [List.forall_mem_cons],
    (processLevels_totals [⟨10, 2⟩, ⟨9, 3⟩] 25 (by norm_num [List.forall_mem_cons])).1,
    (processLevels_totals [⟨10, 2⟩, ⟨9, 3⟩] 25 (by norm_num [List.forall_mem_cons])).2⟩

/-- Witness for the amended C10 at a concrete window: a single buy trade
(non-empty, length ≤ 100) yields ratio `Infinity`. -/
theorem computeTradeStats_buySellRatio_cases_witness :
    ([(⟨1, 1, 1, Side.buy⟩ : NormalizedTrade)] ≠ []) ∧
    ([(⟨1, 1, 1, Side.buy⟩ : NormalizedTrade)].length ≤ 100) ∧
    (computeTradeStats ⟨"0xabc", "AAA/BBB", MarketType.spot⟩
        [⟨1, 1, 1, Side.buy⟩]).buySellRatioV = RatioOrInf.inf :=
  ⟨by simp, by simp,
    ((computeTradeStats_buySellRatio_cases ⟨"0xabc", "AAA/BBB", MarketType.spot⟩
        [⟨1, 1, 1, Side.buy⟩] (by simp) (by simp)).1).mpr
      ⟨by simp [computeTradeStats], by simp [computeTradeStats]⟩⟩

/-! ### Rankings -/

lemma rankedFrom_length (metric : Metric) :
    ∀ (i : ℕ) (l : List (NormalizedMarket × ℚ)),
      (rankedFrom metric i l).length = l.length := by
  intro i l
  induction l generalizing i with
  | nil => rfl
  | cons e rest ih => simp [rankedFrom, ih]

lemma rankedFrom_mem (metric : Metric) :
    ∀ (i : ℕ) (l : List (NormalizedMarket × ℚ)), ∀ r ∈ rankedFrom metric i l,
      ∃ e ∈ l, r.marketId = e.1.marketId ∧ r.ticker = e.1.ticker ∧
        r.mtype = e.1.mtype ∧ r.value = toFixedSafe e.2 6 := by
  intro i l
  induction l generalizing i with
  | nil =>
    intro r hr
    simp [rankedFrom] at hr
  | cons e rest ih =>
    intro r hr
    rcases List.mem_cons.mp hr with rfl | h
    · exact ⟨e, by simp, rfl, rfl, rfl, rfl⟩
    · obtain ⟨e', he', h'⟩ := ih (i + 1) r h
      exact ⟨e', by simp [he'], h'⟩

lemma rankedFrom_get (metric : Metric) :
    ∀ (l : List (NormalizedMarket × ℚ)) (i j : ℕ)
      (h : j < (rankedFrom metric i l).length) (h' : j < l.length),
      (rankedFrom metric i l).get ⟨j, h⟩ =
        { rank := i + j + 1
          marketId := (l.get ⟨j, h'⟩).1.marketId
          ticker := (l.get ⟨j, h'⟩).1.ticker
          mtype := (l.get ⟨j, h'⟩).1.mtype
          value := toFixedSafe (l.get ⟨j, h'⟩).2 6
          metric := metric } := by
  intro l
  induction l with
  | nil =>
    intro i j h h'
    simp at h'
  | cons e rest ih =>
    intro i j h h'
    cases j with
    | zero => simp [rankedFrom]
    | succ k =>
      have hk : k < (rankedFrom metric (i + 1) rest).length := by
        simpa [rankedFrom] using h
      have hk' : k < rest.length := by simpa using h'
      have := ih (i + 1) k hk hk'
      simp only [rankedFrom, List.get_cons_succ]
      rw [this]
      simp only [MarketRanking.mk.injEq, and_true, true_and]
      omega

lemma rankedFrom_mem_of_mem (metric : Metric) :
    ∀ (i : ℕ) (l : List (NormalizedMarket × ℚ)), ∀ e ∈ l,
      ∃ r ∈ rankedFrom metric i l,
        r.marketId = e.1.marketId ∧ r.ticker = e.1.ticker ∧
          r.value = toFixedSafe e.2 6 := by
  intro i l
  induction l generalizing i with
  | nil =>
    intro e he
    simp at he
  | cons x rest ih =>
    intro e he
    rcases List.mem_cons.mp he with rfl | h
    · exact ⟨MarketRanking.mk (i + 1) e.1.marketId e.1.ticker e.1.mtype
        (toFixedSafe e.2 6) metric, List.mem_cons_self _ _, rfl, rfl, rfl⟩
    · obtain ⟨r, hr, h'⟩ := ih (i + 1) e h
      exact ⟨r, List.mem_cons_of_mem _ hr, h'⟩

lemma getRankingsCore_length {E : Type} (metric : Metric) (limit : ℕ)
    (results : List (NormalizedMarket × Except E ℚ)) :
    (getRankingsCore metric limit results).length =
      min limit (collectEntries results).length := by
  unfold getRankingsCore rankingSort
  rw [rankedFrom_length, List.length_take, List.length_mergeSort]

lemma collectEntries_mem {E : Type} {results : List (NormalizedMarket × Except E ℚ)}
    {e : NormalizedMarket × ℚ} (he : e ∈ collectEntries results) :
    (e.1, Except.ok e.2) ∈ results := by
  unfold collectEntries at he
  obtain ⟨r, hr, hmatch⟩ := List.mem_filterMap.mp he
  rcases r with ⟨m, res⟩
  cases res with
  | ok v =>
    simp only [Option.some.injEq] at hmatch
    rw [← hmatch]
    exact hr
  | error err => simp at hmatch

lemma rankingSort_pairwise (ascending : Bool)
    (entries : List (NormalizedMarket × ℚ)) :
    (rankingSort ascending entries).Pairwise
      (fun a b => if ascending then a.2 ≤ b.2 else b.2 ≤ a.2) := by
  unfold rankingSort
  have hs := @List.sorted_mergeSort (NormalizedMarket × ℚ)
    (fun a b => if ascending then decide (a.2 ≤ b.2) else decide (b.2 ≤ a.2))
    (fun a b c hab hbc => by
      cases ascending <;> simp_all <;> linarith)
    (fun a b => by
      cases ascending <;> simp [le_total])
    entries
  refine hs.imp ?_
  intro a b hab
  cases ascending <;> simp_all

lemma rankingSort_take_pairwise (ascending : Bool)
    (entries : List (NormalizedMarket × ℚ)) (limit : ℕ) :
    ((rankingSort ascending entries).take limit).Pairwise
      (fun a b => if ascending then a.2 ≤ b.2 else b.2 ≤ a.2) :=
  List.Pairwise.sublist (List.take_sublist limit _) (rankingSort_pairwise ascending entries)

/-- Claim C2: For every ranking request, the ranking is built from exactly the
fulfilled per-market sub-computations: the output length is
`min(limit, #successes)` (each failing market is dropped, no error is
raised — the core is a total function), every output row originates from a
fulfilled result, and fanning out 5 markets with one failing sub-computation
(default limit 10) yields exactly 4 entries. -/
theorem getRankings_drops_failures :
    (∀ (E : Type) (metric : Metric) (limit : ℕ)
        (results : List (NormalizedMarket × Except E ℚ)),
      (getRankingsCore metric limit results).length =
        min limit (collectEntries results).length) ∧
    (∀ (E : Type) (metric : Metric) (limit : ℕ)
        (results : List (NormalizedMarket × Except E ℚ)),
      ∀ r ∈ getRankingsCore metric limit results,
        ∃ m v, (m, Except.ok v) ∈ results ∧ r.marketId = m.marketId ∧
          r.ticker = m.ticker ∧ r.value = toFixedSafe v 6) ∧
    (∀ (E : Type) (metric : Metric) (limit : ℕ)
        (results : List (NormalizedMarket × Except E ℚ)),
      (collectEntries results).length ≤ limit →
      ∀ e ∈ collectEntries results,
        ∃ r ∈ getRankingsCore metric limit results,
          r.marketId = e.1.marketId ∧ r.ticker = e.1.ticker ∧
            r.value = toFixedSafe e.2 6) ∧
    (@getRankingsCore Unit Metric.volume 10
        [(⟨"0x1", "M1", MarketType.spot⟩, Except.ok 100),
         (⟨"0x2", "M2", MarketType.spot⟩, Except.error ()),
         (⟨"0x3", "M3", MarketType.spot⟩, Except.ok 50),
         (⟨"0x4", "M4", MarketType.spot⟩, Except.ok 75),
         (⟨"0x5", "M5", MarketType.spot⟩, Except.ok 25)]).length = 4 := by
  refine ⟨fun E metric limit results => getRankingsCore_length metric limit results,
    ?_, ?_, ?_⟩
  · intro E metric limit results r hr
    unfold getRankingsCore at hr
    obtain ⟨e, he, h1, h2, _, h4⟩ := rankedFrom_mem _ _ _ r hr
    have he2 : e ∈ rankingSort (metric == Metric.spread) (collectEntries results) :=
      List.mem_of_mem_take he
    have he3 : e ∈ collectEntries results := by
      unfold rankingSort at he2
      exact List.mem_mergeSort.mp he2
    exact ⟨e.1, e.2, collectEntries_mem he3, h1, h2, h4⟩
  · intro E metric limit results hlim e he
    have h1 : e ∈ rankingSort (metric == Metric.spread) (collectEntries results) := by
      unfold rankingSort
      exact List.mem_mergeSort.mpr he
    have h2 : (rankingSort (metric == Metric.spread) (collectEntries results)).take limit =
        rankingSort (metric == Metric.spread) (collectEntries results) := by
      apply List.take_of_length_le
      unfold rankingSort
      rw [List.length_mergeSort]
      exact hlim
    unfold getRankingsCore
    rw [h2]
    exact rankedFrom_mem_of_mem metric 0 _ e h1
  · rw [getRankingsCore_length]
    rfl

/-- Witness for C2: a single fulfilled market appears in its own ranking
row, with the value rounded to 6 digits. -/
theorem getRankings_drops_failures_witness :
    ∃ m v,
      (m, Except.ok v) ∈
        [((⟨"0x1", "M1", MarketType.spot⟩ : NormalizedMarket),
          (Except.ok (5 : ℚ) : Except Unit ℚ))] ∧
      ({ rank := 1, marketId := "0x1", ticker := "M1", mtype := MarketType.spot,
          value := toFixedSafe 5 6, metric := Metric.volume } : MarketRanking).marketId =
        m.marketId ∧
      ({ rank := 1, marketId := "0x1", ticker := "M1", mtype := MarketType.spot,
          value := toFixedSafe 5 6, metric := Metric.volume } : MarketRanking).ticker =
        m.ticker ∧
      ({ rank := 1, marketId := "0x1", ticker := "M1", mtype := MarketType.spot,
          value := toFixedSafe 5 6, metric := Metric.volume } : MarketRanking).value =
        toFixedSafe v 6 :=
  getRankings_drops_failures.2.1 Unit Metric.volume 10
    [(⟨"0x1", "M1", MarketType.spot⟩, Except.ok 5)]
    { rank := 1, marketId := "0x1", ticker := "M1", mtype := MarketType.spot,
      value := toFixedSafe 5 6, metric := Metric.volume }
    (by simp [getRankingsCore, collectEntries, rankingSort, rankedFrom])

lemma getRankingsCore_get_value {E : Type} (metric : Metric) (asc : Bool)
    (hasc : (metric == Metric.spread) = asc) (limit : ℕ)
    (results : List (NormalizedMarket × Except E ℚ)) (j : ℕ)
    (h : j < (getRankingsCore metric limit results).length)
    (h' : j < ((rankingSort asc (collectEntries results)).take limit).length) :
    ((getRankingsCore metric limit results).get ⟨j, h⟩).value =
      toFixedSafe (((rankingSort asc (collectEntries results)).take limit).get
        ⟨j, h'⟩).2 6 := by
  subst hasc
  unfold getRankingsCore
  rw [rankedFrom_get metric _ 0 j h h']

lemma getRankingsCore_get_rank {E : Type} (metric : Metric) (limit : ℕ)
    (results : List (NormalizedMarket × Except E ℚ)) (j : ℕ)
    (h : j < (getRankingsCore metric limit results).length)
    (h' : j < ((rankingSort (metric == Metric.spread)
      (collectEntries results)).take limit).length) :
    ((getRankingsCore metric limit results).get ⟨j, h⟩).rank = j + 1 := by
  unfold getRankingsCore
  rw [rankedFrom_get metric _ 0 j h h']
  show 0 + j + 1 = j + 1
  omega

unseal List.merge List.mergeSort in
/-- Claim C6: `getRankings` sorts the collected values descending except for
the spread metric, which sorts ascending; the `rank` field is the 1-based
position after sorting, the `value` field is the collected value rounded to
6 decimal digits, and at most `limit` entries are returned; in particular
spread values 20, 5, 50 ranked by spread yield order [5, 20, 50] with ranks
1, 2, 3. -/
theorem getRankings_sort_order :
    (∀ (E : Type) (metric : Metric) (limit : ℕ)
        (results : List (NormalizedMarket × Except E ℚ)),
      (getRankingsCore metric limit results).length ≤ limit) ∧
    (∀ (E : Type) (metric : Metric) (limit : ℕ)
        (results : List (NormalizedMarket × Except E ℚ))
        (j : ℕ) (h : j < (getRankingsCore metric limit results).length),
      ((getRankingsCore metric limit results).get ⟨j, h⟩).rank = j + 1) ∧
    (∀ (E : Type) (limit : ℕ) (results : List (NormalizedMarket × Except E ℚ))
        (i j : ℕ) (hij : i < j)
        (h : j < (getRankingsCore Metric.spread limit results).length),
      ((getRankingsCore Metric.spread limit results).get ⟨i, lt_trans hij h⟩).value ≤
        ((getRankingsCore Metric.spread limit results).get ⟨j, h⟩).value) ∧
    (∀ (E : Type) (metric : Metric) (limit : ℕ)
        (results : List (NormalizedMarket × Except E ℚ)),
      metric ≠ Metric.spread →
      ∀ (i j : ℕ) (hij : i < j)
        (h : j < (getRankingsCore metric limit results).length),
        ((getRankingsCore metric limit results).get ⟨j, h⟩).value ≤
          ((getRankingsCore metric limit results).get ⟨i, lt_trans hij h⟩).value) ∧
    (∀ (E : Type) (metric : Metric) (limit : ℕ)
        (results : List (NormalizedMarket × Except E ℚ)),
      ∀ r ∈ getRankingsCore metric limit results,
        ∃ e ∈ collectEntries results, r.value = toFixedSafe e.2 6) ∧
    (@getRankingsCore Unit Metric.spread 10
        [(⟨"0x1", "M1", MarketType.spot⟩, Except.ok 20),
         (⟨"0x2", "M2", MarketType.spot⟩, Except.ok 5),
         (⟨"0x3", "M3", MarketType.spot⟩, Except.ok 50)] =
      [{ rank := 1, marketId := "0x2", ticker := "M2", mtype := MarketType.spot,
         value := toFixedSafe 5 6, metric := Metric.spread },
       { rank := 2, marketId := "0x1", ticker := "M1", mtype := MarketType.spot,
         value := toFixedSafe 20 6, metric := Metric.spread },
       { rank := 3, marketId := "0x3", ticker := "M3", mtype := MarketType.spot,
         value := toFixedSafe 50 6, metric := Metric.spread }]) ∧
    toFixedSafe 5 6 = 5 ∧ toFixedSafe 20 6 = 20 ∧ toFixedSafe 50 6 = 50 := by
  refine ⟨?_, ?_, ?_, ?_, ?_, rfl, by norm_num [toFixedSafe, round_ofNat],
    by norm_num [toFixedSafe, round_ofNat], by norm_num [toFixedSafe, round_ofNat]⟩
  · intro E metric limit results
    rw [getRankingsCore_length]
    exact min_le_left _ _
  · intro E metric limit results j h
    have hlen : (getRankingsCore metric limit results).length =
        ((rankingSort (metric == Metric.spread)
          (collectEntries results)).take limit).length :=
      rankedFrom_length metric 0 _
    exact getRankingsCore_get_rank metric limit results j h (hlen ▸ h)
  · intro E limit results i j hij h
    have hlen : (getRankingsCore Metric.spread limit results).length =
        ((rankingSort true (collectEntries results)).take limit).length :=
      rankedFrom_length Metric.spread 0 _
    have hj' : j < ((rankingSort true (collectEntries results)).take limit).length :=
      hlen ▸ h
    have hi' : i < ((rankingSort true (collectEntries results)).take limit).length :=
      lt_trans hij hj'
    have hp := (List.pairwise_iff_get.mp
      (rankingSort_take_pairwise true (collectEntries results) limit))
      ⟨i, hi'⟩ ⟨j, hj'⟩ hij
    rw [getRankingsCore_get_value Metric.spread true rfl limit results i
        (lt_trans hij h) hi',
      getRankingsCore_get_value Metric.spread true rfl limit results j h hj']
    exact toFixedSafe_mono 6 (by simpa using hp)
  · intro E metric limit results hm i j hij h
    have hf : (metric == Metric.spread) = false := by
      cases metric <;> simp_all
    have hlen : (getRankingsCore metric limit results).length =
        ((rankingSort false (collectEntries results)).take limit).length := by
      unfold getRankingsCore
      rw [rankedFrom_length, hf]
    have hj' : j < ((rankingSort false (collectEntries results)).take limit).length :=
      hlen ▸ h
    have hi' : i < ((rankingSort false (collectEntries results)).take limit).length :=
      lt_trans hij hj'
    have hp := (List.pairwise_iff_get.mp
      (rankingSort_take_pairwise false (collectEntries results) limit))
      ⟨i, hi'⟩ ⟨j, hj'⟩ hij
    rw [getRankingsCore_get_value metric false hf limit results i
        (lt_trans hij h) hi',
      getRankingsCore_get_value metric false hf limit results j h hj']
    exact toFixedSafe_mono 6 (by simpa using hp)
  · intro E metric limit results r hr
    unfold getRankingsCore at hr
    obtain ⟨e, he, _, _, _, h4⟩ := rankedFrom_mem _ _ _ r hr
    have he3 : e ∈ collectEntries results := by
      have he2 := List.mem_of_mem_take he
      unfold rankingSort at he2
      exact List.mem_mergeSort.mp he2
    exact ⟨e, he3, h4⟩

/-- Witness for C6 at the concrete spread scenario: the value ranked first
(5 bps) is at most the value ranked second (20 bps). -/
theorem getRankings_sort_order_witness :
    toFixedSafe (5 : ℚ) 6 ≤ toFixedSafe (20 : ℚ) 6 := by
  have hlen : 1 < (@getRankingsCore Unit Metric.spread 10
      [(⟨"0x1", "M1", MarketType.spot⟩, Except.ok 20),
       (⟨"0x2", "M2", MarketType.spot⟩, Except.ok 5),
       (⟨"0x3", "M3", MarketType.spot⟩, Except.ok 50)]).length := by
    rw [getRankingsCore_length]
    decide
  have h := getRankings_sort_order.2.2.1 Unit 10
    [(⟨"0x1", "M1", MarketType.spot⟩, Except.ok 20),
     (⟨"0x2", "M2", MarketType.spot⟩, Except.ok 5),
     (⟨"0x3", "M3", MarketType.spot⟩, Except.ok 50)] 0 1 (by norm_num) hlen
  rw [List.get_of_eq getRankings_sort_order.2.2.2.2.2.1] at h
  rw [List.get_of_eq getRankings_sort_order.2.2.2.2.2.1] at h
  simpa using h

end MarketPulse
